import Mathlib

/-!
# Verification of the Akumuli in-memory cache (src/cache.cpp)

Shallow embedding of the three layers of `cache.cpp`:

* `Sequence` (a shard): an ordered map from `(timestamp, param-id)` keys to
  entry offsets, plus a transient overflow buffer (`temp_`).
* `Bucket`: a fixed group of shards with a `baseline`, a retirement counter
  `state` and the round-robin counter `rrindex_`.
* `Cache`: an active window (`cache_`), a free list (`free_list_`), the
  current `baseline_` and the TTL-derived `shift_`.

The embedding is sequential: every `try_lock` in the source succeeds, so the
lock-protected fast paths are modelled directly.  Machine integers are
modelled as `Nat` (timestamps, ids, offsets are non-negative) and `Int`
(bucket baselines and the signed window index).  C++ operations whose
behaviour is undefined (dereferencing a `std::map` end iterator, reading
past a zero-length array) are modelled by returning `none`.
-/

namespace Akumuli

/-- Modelled from the spec: numeric status codes live in `akumuli_def.h`,
which is not part of the sources; only distinctness of the codes is used. -/
def AKU_SUCCESS : Nat := 0

/-- Modelled from the spec: write-success status code (`akumuli_def.h`). -/
def AKU_WRITE_STATUS_SUCCESS : Nat := 1

/-- Modelled from the spec: bad-argument status code (`akumuli_def.h`). -/
def AKU_EBAD_ARG : Nat := 2

/-- Modelled from the spec: overflow status code (`akumuli_def.h`). -/
def AKU_EOVERFLOW : Nat := 3

/-- Modelled from the spec: general-failure status code (`akumuli_def.h`). -/
def AKU_EGENERAL : Nat := 4

/-- Modelled from the spec: busy status code (`akumuli_def.h`). -/
def AKU_EBUSY : Nat := 5

/-- Modelled from the spec: forward cursor direction constant
(`akumuli_def.h`); only distinctness from the backward constant is used. -/
def AKU_CURSOR_DIR_FORWARD : Nat := 0

/-- Modelled from the spec: backward cursor direction constant
(`akumuli_def.h`). -/
def AKU_CURSOR_DIR_BACKWARD : Nat := 1

/-- Modelled from the spec: `ParamId` is an unsigned machine integer
(declared in the absent header); `(ParamId)~0` is its largest value.  The
modelled width is 32 bits; only `pid ≤ PARAM_MAX` for stored ids is used. -/
def PARAM_MAX : Nat := 2 ^ 32 - 1

/-- A key of the shard map: `std::tuple<TimeStamp, ParamId>`. -/
abbrev Key := Nat × Nat

/-- An entry of the shard map: key paired with its `EntryOffset` value. -/
abbrev MapEntry := Key × Nat

/-- Lexicographic `operator<` of `std::tuple` on `(timestamp, param-id)`. -/
def keyLt (a b : Key) : Bool :=
  decide (a.1 < b.1) || (a.1 == b.1 && decide (a.2 < b.2))

/-- A shard (source class `Sequence`): the ordered map `data_` is modelled
as a key-sorted association list, the overflow buffer `temp_` as a list of
`(timestamp, param, offset)` triples.  `capacity_` is stored but the source
never consults it in `add`/`search`. -/
structure Sequence where
  capacity : Nat
  data : List MapEntry
  temp : List (Nat × Nat × Nat)
deriving DecidableEq, Repr

/-- Modelled from the spec: `MapType` is declared in the absent `cache.h`.
The spec fixes it to an ordered mapping with unique keys whose insert is
first-writer-wins (`std::map::insert`: a second insert with a present key is
dropped).  `mapInsert` keeps the list key-sorted and never overwrites. -/
def mapInsert (k : Key) (v : Nat) : List MapEntry → List MapEntry
  | [] => [(k, v)]
  | e :: rest =>
    if keyLt k e.1 then (k, v) :: e :: rest
    else if k = e.1 then e :: rest
    else e :: mapInsert k v rest

/-- First binding of a key in an association list (map lookup). -/
def mapLookup (l : List MapEntry) (k : Key) : Option Nat :=
  (l.find? (fun e => e.1 == k)).map (·.2)

/-- Source `Sequence::add` (cache.cpp:37-57) in the sequential model: both
`try_lock`s succeed, so the pending `temp_` triples are drained into `data_`
(the source does not clear `temp_` afterwards) and the new key is inserted. -/
def Sequence.add (s : Sequence) (ts param offset : Nat) : Nat × Sequence :=
  let drained := s.temp.foldl (fun d t => mapInsert (t.1, t.2.1) t.2.2 d) s.data
  (AKU_WRITE_STATUS_SUCCESS, { s with data := mapInsert (ts, param) offset drained })

/-- The single-parameter search query (`SingleParameterSearchQuery`). -/
structure SearchQuery where
  lowerbound : Nat
  upperbound : Nat
  param : Nat
  direction : Nat
deriving DecidableEq, Repr

/-- Events delivered to the cursor sink (`InternalCursor`): `put` carries an
entry offset, `complete` and `error` mirror the other sink capabilities. -/
inductive CursorEvent where
  | put : Nat → CursorEvent
  | complete : CursorEvent
  | error : Nat → CursorEvent
deriving DecidableEq, Repr

/-- Position of `data_.upper_bound(k)` on the sorted list: the index of the
first entry whose key is strictly greater than `k`. -/
def upperBoundIdx (data : List MapEntry) (k : Key) : Nat :=
  (data.takeWhile (fun e => ! keyLt k e.1)).length

/-- The backward scan loop of `Sequence::search` (cache.cpp:80-92), walking
the iterator position `i` down to `begin`.  The loop dereferences the
iterator before any bounds check; a dereference at a position holding no
entry (C++: past-the-end, undefined behaviour) yields `none`. -/
def backwardScan (data : List MapEntry) (lb ub param : Nat) :
    Nat → List Nat → Option (List Nat)
  | 0, acc =>
    match data.get? 0 with
    | none => none
    | some e =>
      if e.1.1 ≤ lb then some acc
      else some (if e.1.2 == param && decide (e.1.1 ≤ ub) then acc ++ [e.2] else acc)
  | i + 1, acc =>
    match data.get? (i + 1) with
    | none => none
    | some e =>
      if e.1.1 ≤ lb then some acc
      else
        backwardScan data lb ub param i
          (if e.1.2 == param && decide (e.1.1 ≤ ub) then acc ++ [e.2] else acc)

/-- The forward scan loop of `Sequence::search` (cache.cpp:103-112) over the
suffix starting at `data_.lower_bound((lowerbound, 0))`. -/
def forwardScan (ub param : Nat) : List MapEntry → List Nat
  | [] => []
  | e :: rest =>
    if ub ≤ e.1.1 then []
    else (if e.1.2 == param then [e.2] else []) ++ forwardScan ub param rest

/-- Source `Sequence::search` (cache.cpp:59-115).  The result is the list of sink
events in order; `none` marks a run that dereferences an invalid iterator
position (possible only in the backward branch, at the initial
`upper_bound` position). -/
def Sequence.search (s : Sequence) (q : SearchQuery) : Option (List CursorEvent) :=
  let forward := q.direction == AKU_CURSOR_DIR_FORWARD
  let backward := q.direction == AKU_CURSOR_DIR_BACKWARD
  if decide (q.upperbound < q.lowerbound) || !(forward.xor backward) then
    some [CursorEvent.error AKU_EBAD_ARG]
  else if backward then
    match backwardScan s.data q.lowerbound q.upperbound q.param
        (upperBoundIdx s.data (q.upperbound, PARAM_MAX)) [] with
    | none => none
    | some offs => some (offs.map CursorEvent.put ++ [CursorEvent.complete])
  else
    let suffix := s.data.dropWhile (fun e => keyLt e.1 (q.lowerbound, 0))
    some ((forwardScan q.upperbound q.param suffix).map CursorEvent.put
      ++ [CursorEvent.complete])

/-- A `Bucket` (cache.cpp:132-143): `n` shards, the retirement counter
`state` (0 = live), the time-window index `baseline` and the round-robin
counter `rrindex_`.  The constructor zeroes `state` and `rrindex_`; the copy
constructor (cache.cpp:145-151) also resets `rrindex_` to 0. -/
structure Bucket where
  seq : List Sequence
  state : Nat
  baseline : Int
  rrindex : Nat
deriving DecidableEq, Repr

/-- A freshly constructed `Bucket` (cache.cpp:132-143): `n` empty shards of
capacity `max_size`, `state = 0`, `rrindex_ = 0`. -/
def freshBucket (n max_size : Nat) (baseline : Int) : Bucket :=
  { seq := List.replicate n { capacity := max_size, data := [], temp := [] }
    state := 0
    baseline := baseline
    rrindex := 0 }

/-- Source `Bucket::add` (cache.cpp:162-166): the calling CPU index (an input of
the model) modulo the shard count selects the shard.  `none` models the
out-of-range access that a bucket with zero shards would perform. -/
def Bucket.add (b : Bucket) (cpuix ts param offset : Nat) : Option (Nat × Bucket) :=
  let index := cpuix % b.seq.length
  match b.seq.get? index with
  | none => none
  | some s =>
    let r := s.add ts param offset
    some (r.1, { b with seq := b.seq.set index r.2 })

/-- Source `Bucket::search` (cache.cpp:168-172): fans the query out to every shard
sequentially, concatenating the sink events of the scan of each shard. -/
def Bucket.search (b : Bucket) (q : SearchQuery) : Option (List CursorEvent) :=
  b.seq.foldl
    (fun acc s => acc.bind (fun evs => (s.search q).map (fun e => evs ++ e)))
    (some [])

/-- The entry reader (`PageHeader::read_entry`): resolves a stored offset to
the canonical `(timestamp, param_id)` of the entry (spec §6). -/
abbrev PageReader := Nat → Nat × Nat

/-- Source `less_than` (cache.cpp:176-184): compares two map entries by the
`(time, param_id)` pair obtained by resolving their offsets via the page. -/
def less_than (page : PageReader) (lhs rhs : MapEntry) : Bool :=
  keyLt (page lhs.2) (page rhs.2)

/-- The inner `for` loop of the k-way merge (cache.cpp:213-224): scans the
shard cursors `i = 0..n-1`, skipping `i = min`, updating `(min, next_min)`
and counting shards that still hold an element.  `iters` holds the
remaining suffix of each shard; comparing against an exhausted `iter[min]` dereferences
the end iterator (undefined behaviour), modelled as `none`. -/
def mergeScanStep (page : PageReader) (iters : List (List MapEntry)) :
    Nat → Nat → Nat → Nat → Nat → Option (Nat × Nat × Nat)
  | 0, _, min, next_min, op_cnt => some (min, next_min, op_cnt)
  | k + 1, i, min, next_min, op_cnt =>
    if i == min then mergeScanStep page iters k (i + 1) min next_min op_cnt
    else
      match iters.get? i with
      | none => some (min, next_min, op_cnt)
      | some [] => mergeScanStep page iters k (i + 1) min next_min op_cnt
      | some (e :: _) =>
        match iters.get? min with
        | none => none
        | some [] => none
        | some (m :: _) =>
          if less_than page e m then
            mergeScanStep page iters k (i + 1) i min (op_cnt + 1)
          else
            mergeScanStep page iters k (i + 1) min i (op_cnt + 1)

/-- The outer `while` loop of the k-way merge (cache.cpp:210-230): run the
scan, stop when no shard other than `min` holds an element, otherwise emit
the head of shard `min` and advance it.  `fuel` bounds the iteration count
(one more than the total number of entries suffices). -/
def mergeLoop (page : PageReader) : Nat → Nat → List (List MapEntry) →
    List Nat → Option (Nat × List Nat)
  | 0, _, _, _ => none
  | fuel + 1, next_min, iters, acc =>
    match mergeScanStep page iters iters.length 0 next_min next_min 0 with
    | none => none
    | some (min, next_min', op_cnt) =>
      if op_cnt == 0 then some (AKU_SUCCESS, acc)
      else
        match iters.get? min with
        | some (e :: rest) =>
          mergeLoop page fuel next_min' (iters.set min rest) (acc ++ [e.2])
        | _ => none

/-- Source `Bucket::merge` (cache.cpp:186-242).  Returns the status together with
the offsets emitted to the sink; `none` models the undefined accesses of
the loops.  The always-false `assert(iter == end)` (an array-address
comparison) is compiled out (`NDEBUG`). -/
def Bucket.merge (b : Bucket) (page : PageReader) : Option (Nat × List Nat) :=
  if b.state == 0 then some (AKU_EBUSY, [])
  else if b.rrindex == 0 then some (AKU_SUCCESS, [])
  else
    let iters := b.seq.map (·.data)
    if 1 < b.seq.length then
      mergeLoop page ((iters.map List.length).sum + 1) 0 iters []
    else
      match iters.get? 0 with
      | none => none
      | some l => some (AKU_SUCCESS, l.map (·.2))

/-- The `Cache` (cache.h fields used by cache.cpp:246-392): the active
window `cache_` and the free list `free_list_` are lists of buckets, plus
`baseline_`, `shift_`, the per-shard capacity hint `max_size_` and the
per-bucket shard count `bucket_size_`. -/
structure Cache where
  cache : List Bucket
  freeList : List Bucket
  baseline : Int
  shift : Nat
  max_size : Nat
  bucket_size : Nat
deriving DecidableEq, Repr

/-- Source `mark_last` (cache.cpp:288-296): increment the `state` counter of the
last `n` buckets of the container, regardless of their current state.  (For
`n` larger than the container the source advances an iterator out of range;
the model then marks the whole list.) -/
def mark_last (l : List Bucket) (n : Nat) : List Bucket :=
  l.take (l.length - n) ++
    (l.drop (l.length - n)).map (fun b => { b with state := b.state + 1 })

/-- Source `Cache::allocate_from_free_list` (cache.cpp:298-314): top up the free
list with freshly constructed buckets (baselines `baseline + i`) when it
holds fewer than `nnew`, then splice the first `nnew` free buckets to the
front of the active window.  The splice call transfers the buckets as they
are: reused buckets keep their previous contents, `state` and `baseline`. -/
def allocate_from_free_list (c : Cache) (nnew : Nat) (baseline : Int) : Cache :=
  let n := c.freeList.length
  let fl :=
    if n < nnew then
      c.freeList ++ (List.range (nnew - n)).map
        (fun i => freshBucket c.bucket_size c.max_size (baseline + i))
    else c.freeList
  { c with cache := fl.take nnew ++ c.cache, freeList := fl.drop nnew }

/-- The `Cache` constructor (cache.cpp:246-267): prepopulate the free list
with `population` fresh buckets (baselines `baseline_ + i` with
`baseline_ = 0`), then allocate `max_caches` buckets into the window.
`shift_` is taken directly (`log2(ttl)`); the minimum-TTL construction
check concerns only startup failure and is outside the model. -/
def mkCache (population max_caches bucket_size max_size shift : Nat) : Cache :=
  let c0 : Cache :=
    { cache := []
      freeList := (List.range population).map
        (fun i => freshBucket bucket_size max_size ((0 : Int) + i))
      baseline := 0
      shift := shift
      max_size := max_size
      bucket_size := bucket_size }
  allocate_from_free_list c0 max_caches 0

/-- The bucket index of a timestamp: `ts.value >> shift_` (cache.cpp:318). -/
def bucketIndexOf (shift ts : Nat) : Nat := ts >>> shift

/-- The `find_if` plus `target->add` of `Cache::add_entry_`: find the first
bucket with `state == 0 && baseline == bucket_index` and add the entry to
it.  The outer `none` models an undefined access inside `Bucket::add`; the
inner `none` means `it == cache_.end()` (no live bucket matches). -/
def findAddLive (idx : Int) (cpuix ts param offset : Nat) :
    List Bucket → Option (Option (Nat × List Bucket))
  | [] => some none
  | b :: rest =>
    if b.state == 0 && b.baseline == idx then
      match b.add cpuix ts param offset with
      | none => none
      | some (st, b') => some (some (st, b' :: rest))
    else
      match findAddLive idx cpuix ts param offset rest with
      | none => none
      | some none => some none
      | some (some (st, rest')) => some (some (st, b :: rest'))

/-- Source `Cache::add_entry_` (cache.cpp:316-378) for the window capacity
`max_caches` (`AKU_LIMITS_MAX_CACHES`).  Returns the status, the new cache
state and the amount added to `*nswapped`; `none` models the undefined
accesses (`front()` of an empty window, a zero-shard bucket). -/
def Cache.add_entry_ (max_caches : Nat) (c : Cache) (ts param offset cpuix : Nat) :
    Option (Nat × Cache × Nat) :=
  let bucket_index : Int := (bucketIndexOf c.shift ts : Nat)
  let index : Int := c.baseline - bucket_index
  if 0 ≤ index then
    if index = 0 then
      match c.cache with
      | [] => none
      | b :: rest =>
        (b.add cpuix ts param offset).map
          (fun r => (r.1, { c with cache := r.2 :: rest }, 0))
    else
      match findAddLive bucket_index cpuix ts param offset c.cache with
      | none => none
      | some none => some (AKU_EOVERFLOW, c, 0)
      | some (some (st, l')) => some (st, { c with cache := l' }, 0)
  else
    let count : Int := 0 - index
    let c1 := { c with baseline := bucket_index }
    if (max_caches : Int) ≤ count then
      let c2 := { c1 with cache := mark_last c1.cache max_caches }
      let c3 := allocate_from_free_list c2 max_caches (bucket_index - max_caches)
      match findAddLive bucket_index cpuix ts param offset c3.cache with
      | none => none
      | some none => some (AKU_EGENERAL, c3, max_caches)
      | some (some (st, l')) => some (st, { c3 with cache := l' }, max_caches)
    else
      let freeslots : Int := (max_caches : Int) - count
      let sz : Nat := c1.cache.length
      let recycle : Nat := if freeslots < (sz : Int) then ((sz : Int) - freeslots).toNat else 0
      let c2 := if freeslots < (sz : Int)
        then { c1 with cache := mark_last c1.cache recycle }
        else c1
      let c3 := allocate_from_free_list c2 count.toNat (bucket_index - count)
      match findAddLive bucket_index cpuix ts param offset c3.cache with
      | none => none
      | some none => some (AKU_EGENERAL, c3, recycle)
      | some (some (st, l')) => some (st, { c3 with cache := l' }, recycle)

/-- Source `Cache::clear` (cache.cpp:388-392): splice the whole active window into
the free list without any per-bucket cleanup. -/
def Cache.clear (c : Cache) : Cache :=
  { c with cache := [], freeList := c.cache ++ c.freeList }

/-- Driver for a sequence of `add_entry_` calls sharing one `nswapped`
accumulator, as `Cache::add_entry` callers do: each element of the list is
`(ts, param, offset, cpuix)`. -/
def runAdds (max_caches : Nat) (init : Option (Cache × Nat)) :
    List (Nat × Nat × Nat × Nat) → Option (Cache × Nat)
  | [] => init
  | a :: rest =>
    match init with
    | none => none
    | some (c, acc) =>
      match Cache.add_entry_ max_caches c a.1 a.2.1 a.2.2.1 a.2.2.2 with
      | none => none
      | some (_, c', sw) => runAdds max_caches (some (c', acc + sw)) rest

/-- Number of retired (`state ≠ 0`) buckets in the active window. -/
def retiredCount (c : Cache) : Nat := (c.cache.filter (fun b => b.state != 0)).length

/-- Number of live (`state == 0`) buckets in the active window. -/
def liveCount (c : Cache) : Nat := (c.cache.filter (fun b => b.state == 0)).length

/-- The `state` counter of the (first) window bucket with a given baseline. -/
def stateOfBaseline (c : Cache) (bl : Int) : Option Nat :=
  (c.cache.find? (fun b => b.baseline == bl)).map (·.state)

/-- Spec-side predicate (spec §4.1, forward): the key timestamp lies in
`[lb, ub)` and the parameter id matches. -/
def inRangeForward (lb ub p : Nat) (e : MapEntry) : Bool :=
  decide (lb ≤ e.1.1) && (decide (e.1.1 < ub) && (e.1.2 == p))

/-- Spec-side predicate (spec §4.1, backward): the key timestamp lies in
`(lb, ub]` and the parameter id matches. -/
def inRangeBackward (lb ub p : Nat) (e : MapEntry) : Bool :=
  decide (lb < e.1.1) && (e.1.2 == p && decide (e.1.1 ≤ ub))

/-- Reasoning helper: the emissions of the backward scan over a list of
entries processed head first (the entries from the start position downwards,
in descending key order). -/
def emitsDesc (lb ub p : Nat) : List MapEntry → List Nat
  | [] => []
  | e :: rest =>
    if e.1.1 ≤ lb then []
    else (if e.1.2 == p && decide (e.1.1 ≤ ub) then [e.2] else []) ++ emitsDesc lb ub p rest

/-- Scenario for the window-slide claims: capacity 4, population 8, one
shard per bucket, `shift_ = 4` (bucket width 16). -/
def demoCache : Cache := mkCache 8 4 1 10 4

/-- One single-step slide: an add at `ts = 16` (bucket index 1). -/
def demoRun1 : Option (Cache × Nat) := runAdds 4 (some (demoCache, 0)) [(16, 1, 7, 0)]

/-- Two single-step slides: adds at `ts = 16` then `ts = 32` (bucket
indices 1 and 2). -/
def demoRun2 : Option (Cache × Nat) :=
  runAdds 4 (some (demoCache, 0)) [(16, 1, 7, 0), (32, 1, 8, 0)]

/-- Scenario for the bucket-reuse claim: capacity 2, population 2. -/
def reuseCache0 : Cache := mkCache 2 2 1 10 4

/-- Fill the front bucket: add `(ts = 0, param = 1) ↦ offset 7`. -/
def reuseStep1 : Option (Nat × Cache × Nat) := reuseCache0.add_entry_ 2 0 1 7 0

/-- Retire the whole window into the free list via `Cache::clear`. -/
def reuseCleared : Option Cache := reuseStep1.map (fun r => r.2.1.clear)

/-- Slide to bucket index 1; this reuses the formerly filled bucket from
the free list. -/
def reuseFinal : Option (Nat × Cache × Nat) :=
  reuseCleared.bind (fun c => c.add_entry_ 2 16 1 8 0)

/-- A retired bucket with two shards holding one entry each, built by the
bucket constructor, two adds (CPU 0 and CPU 1) and one retirement mark as
`mark_last` performs it.  Its `rrindex` is 0, as for every reachable
bucket: no operation of the source ever increments `rrindex_`. -/
def mergeDemoBucket : Bucket :=
  match (freshBucket 2 10 0).add 0 10 1 100 with
  | some (_, b1) =>
    match b1.add 1 5 1 200 with
    | some (_, b2) => { b2 with state := b2.state + 1 }
    | none => freshBucket 2 10 0
  | none => freshBucket 2 10 0

/-- The entry reader for the merge scenario: offset 200 resolves to the
canonical pair `(5, 1)` and offset 100 to `(10, 1)`. -/
def mergeDemoPage : PageReader := fun off => if off == 200 then (5, 1) else (10, 1)

/-- A cache state whose single live window bucket sits at baseline 5 =
`baseline_`; any write with bucket index below 5 is an overflow. -/
def owCache : Cache :=
  { cache := [{ seq := [{ capacity := 10, data := [], temp := [] }],
                state := 0, baseline := 5, rrindex := 0 }]
    freeList := []
    baseline := 5
    shift := 4
    max_size := 10
    bucket_size := 1 }

/-! ## Theorems -/

theorem keyLt_iff (a b : Key) :
    keyLt a b = true ↔ (a.1 < b.1 ∨ (a.1 = b.1 ∧ a.2 < b.2)) := by
  simp [keyLt, decide_eq_true_eq]

theorem keyLt_irrefl (a : Key) : keyLt a a = false := by
  rcases a with ⟨t, pi⟩
  simp [keyLt]

theorem keyLt_ts_le {a b : Key} (h : keyLt a b = true) : a.1 ≤ b.1 := by
  rcases (keyLt_iff a b).1 h with h1 | h2
  · omega
  · omega

theorem keyLt_trans {a b c : Key} (h1 : keyLt a b = true) (h2 : keyLt b c = true) :
    keyLt a c = true := by
  rw [keyLt_iff] at h1 h2 ⊢
  omega

theorem keyLt_asymm {a b : Key} (h : keyLt a b = true) : keyLt b a = false := by
  rw [keyLt_iff] at h
  rcases hb : keyLt b a with _ | _
  · rfl
  · rw [keyLt_iff] at hb; omega

theorem keyLt_of_not {a b : Key} (h : keyLt a b = false) (hne : a ≠ b) :
    keyLt b a = true := by
  have h' : ¬ (a.1 < b.1 ∨ (a.1 = b.1 ∧ a.2 < b.2)) := by
    rw [← keyLt_iff a b]
    simp [h]
  have hne' : ¬ (a.1 = b.1 ∧ a.2 = b.2) := by
    intro hc
    exact hne (Prod.ext hc.1 hc.2)
  rw [keyLt_iff]
  omega

/-- Claim C6: calling `Bucket::merge` on a bucket whose state counter is 0
(still accepting writes) returns the busy error and emits nothing to the
sink, whatever the bucket holds. -/
theorem merge_busy_on_live (b : Bucket) (page : PageReader) (h : b.state = 0) :
    b.merge page = some (AKU_EBUSY, []) := by
  simp [Bucket.merge, h]

/-- Witness for C6 at a concrete live bucket. -/
theorem merge_busy_on_live_witness :
    (freshBucket 1 10 0).merge (fun _ => (0, 0)) = some (AKU_EBUSY, []) :=
  merge_busy_on_live (freshBucket 1 10 0) (fun _ => (0, 0)) rfl

/-- Claim C1, evaluated at the failing input: a retired (`state = 1`)
bucket whose two shards hold one entry each.  `Bucket::merge` returns
success and emits nothing, because its emptiness fast path reads
`rrindex_`, which no operation ever increments; the claimed output would
be the offsets 200, 100 in canonical order. -/
theorem merge_dead_rrindex :
    mergeDemoBucket.state = 1 ∧
    mergeDemoBucket.rrindex = 0 ∧
    (mergeDemoBucket.seq.map (fun s => s.data.length)).sum = 2 ∧
    mergeDemoBucket.merge mergeDemoPage = some (AKU_SUCCESS, []) ∧
    mergeDemoBucket.merge mergeDemoPage ≠ some (AKU_SUCCESS, [200, 100]) := by
  decide

/-- Claim C2, evaluated at the failing input: two single-step slides of
`demoCache` report a cumulative `nswapped` of 3, although only 2 window
buckets were retired (the live count stays at the capacity 4). -/
theorem swapped_count_over_reports :
    demoRun2.map (fun r => (r.2, retiredCount r.1, liveCount r.1)) = some (3, 2, 4) ∧
    (3 : Nat) ≠ 2 := by
  decide

/-- Claim C9, evaluated at the failing input: the bucket at baseline 3 is
retired (state 1) by the first slide, and the second slide increments its
already nonzero counter again (state 2). -/
theorem state_counter_double_increment :
    demoRun1.map (fun r => stateOfBaseline r.1 3) = some (some 1) ∧
    demoRun2.map (fun r => stateOfBaseline r.1 3) = some (some 2) := by
  decide

/-- Claim C7, evaluated at the failing input: after filling the front
bucket, clearing the cache and sliding to bucket index 1, the reused
bucket re-enters the window with its old baseline 0 (not the slot index 1)
and its old entry `(0, 1) ↦ 7` intact, which the bucket search still
reports; the slide itself then fails with the general error because no
window bucket carries the expected baseline. -/
theorem reuse_keeps_stale_contents :
    reuseFinal.map (fun r => r.1) = some AKU_EGENERAL ∧
    reuseFinal.map (fun r => r.2.1.cache.map (fun b => (b.baseline, b.seq.map (·.data))))
      = some [((0 : Int), [[((0, 1), 7)]])] ∧
    reuseFinal.map (fun r => r.2.1.cache.head?.map
        (fun b => b.search ⟨0, 1, 1, AKU_CURSOR_DIR_FORWARD⟩))
      = some (some (some [CursorEvent.put 7, CursorEvent.complete])) :=
  ⟨rfl, rfl, rfl⟩

/-- Claim C10, evaluated at the failing input: for the shard holding only
`(5, 2) ↦ 50` and the backward query over `[0, 10]`, the initial
`upper_bound` position is the end of the map (index = length), and the
scan dereferences it: no lookup result exists there, so the run is the
undefined marker `none`. -/
theorem backward_end_deref :
    upperBoundIdx [((5, 2), 50)] (10, PARAM_MAX) = 1 ∧
    (Sequence.mk 10 [((5, 2), 50)] []).data.length = 1 ∧
    (Sequence.mk 10 [((5, 2), 50)] []).search ⟨0, 10, 2, AKU_CURSOR_DIR_BACKWARD⟩ = none := by
  decide

theorem findAddLive_not_found (idx : Int) (cpuix ts param offset : Nat)
    (l : List Bucket) (h : ∀ b ∈ l, ¬ (b.state = 0 ∧ b.baseline = idx)) :
    findAddLive idx cpuix ts param offset l = some none := by
  induction l with
  | nil => rfl
  | cons b rest ih =>
    have hb := h b (List.mem_cons_self b rest)
    have hcond : (b.state == 0 && b.baseline == idx) = false := by
      rw [Bool.eq_false_iff]
      intro hc
      rw [Bool.and_eq_true, beq_iff_eq, beq_iff_eq] at hc
      exact hb hc
    have ih' := ih (fun x hx => h x (List.mem_cons_of_mem b hx))
    simp [findAddLive, hcond, ih']

/-- Claim C5: a `Cache::add_entry_` whose computed bucket index is older
than (below the baseline of) every live bucket of the window — the window
front being live at `baseline_`, as the data model requires — returns the
overflow status, leaves the cache state unchanged and adds nothing to
`nswapped`. -/
theorem add_entry_overflow_unchanged (max_caches : Nat) (c : Cache)
    (ts param offset cpuix : Nat)
    (hfront : ∃ b ∈ c.cache, b.state = 0 ∧ b.baseline = c.baseline)
    (hold : ∀ b ∈ c.cache, b.state = 0 →
      ((bucketIndexOf c.shift ts : Nat) : Int) < b.baseline) :
    c.add_entry_ max_caches ts param offset cpuix = some (AKU_EOVERFLOW, c, 0) := by
  obtain ⟨b0, hb0, hb0s, hb0b⟩ := hfront
  have hlt : ((bucketIndexOf c.shift ts : Nat) : Int) < c.baseline := by
    rw [← hb0b]
    exact hold b0 hb0 hb0s
  have h0 : (0 : Int) ≤ c.baseline - ((bucketIndexOf c.shift ts : Nat) : Int) := by omega
  have hne : ¬ (c.baseline - ((bucketIndexOf c.shift ts : Nat) : Int) = 0) := by omega
  have hfind : findAddLive ((bucketIndexOf c.shift ts : Nat) : Int)
      cpuix ts param offset c.cache = some none := by
    apply findAddLive_not_found
    intro b hb hc
    have := hold b hb hc.1
    omega
  simp only [Cache.add_entry_, if_pos h0, if_neg hne, hfind]

/-- Witness for C5: in `owCache` the only live bucket sits at baseline 5;
a write with bucket index 1 (`ts = 16`, `shift = 4`) overflows and the
state is returned untouched. -/
theorem add_entry_overflow_unchanged_witness :
    owCache.add_entry_ 4 16 1 7 0 = some (AKU_EOVERFLOW, owCache, 0) :=
  add_entry_overflow_unchanged 4 owCache 16 1 7 0 (by decide) (by decide)

theorem dropWhile_head_false {α : Type} (q : α → Bool) :
    ∀ {l : List α} {x : α} {xs : List α}, l.dropWhile q = x :: xs → q x = false := by
  intro l
  induction l with
  | nil =>
    intro x xs h
    simp [List.dropWhile] at h
  | cons a t ih =>
    intro x xs h
    rw [List.dropWhile_cons] at h
    split at h
    · exact ih h
    · next hq =>
      cases h
      exact Bool.eq_false_iff.mpr hq

theorem keyLt_lb0 (k : Key) (lb : Nat) : keyLt k (lb, 0) = true ↔ k.1 < lb := by
  rw [keyLt_iff]
  omega

theorem dropWhile_ts_lb (lb : Nat) (data : List MapEntry)
    (hs : data.Pairwise (fun a b => keyLt a.1 b.1 = true)) :
    ∀ x ∈ data.dropWhile (fun e => keyLt e.1 (lb, 0)), lb ≤ x.1.1 := by
  intro x hx
  cases hD : data.dropWhile (fun e => keyLt e.1 (lb, 0)) with
  | nil =>
    rw [hD] at hx
    cases hx
  | cons r0 rs =>
    rw [hD] at hx
    have hr0 : keyLt r0.1 (lb, 0) = false :=
      dropWhile_head_false (fun e : MapEntry => keyLt e.1 (lb, 0)) hD
    have hr0' : lb ≤ r0.1.1 := by
      rcases Nat.lt_or_ge r0.1.1 lb with hlt | hge
      · rw [(keyLt_lb0 r0.1 lb).mpr hlt] at hr0
        cases hr0
      · exact hge
    have hPD : (r0 :: rs).Pairwise (fun a b => keyLt a.1 b.1 = true) := by
      rw [← hD]
      exact List.Pairwise.sublist (List.dropWhile_sublist _) hs
    rcases List.mem_cons.mp hx with rfl | hxs
    · exact hr0'
    · have h01 := (List.pairwise_cons.mp hPD).1 x hxs
      have := keyLt_ts_le h01
      omega

theorem forwardScan_eq_filter (ub p : Nat) (l : List MapEntry)
    (hs : l.Pairwise (fun a b => keyLt a.1 b.1 = true)) :
    forwardScan ub p l
      = (l.filter (fun e => decide (e.1.1 < ub) && (e.1.2 == p))).map (·.2) := by
  induction l with
  | nil => rfl
  | cons e rest ih =>
    rw [List.pairwise_cons] at hs
    have ih' := ih hs.2
    by_cases hub : ub ≤ e.1.1
    · have hnil : rest.filter (fun x => decide (x.1.1 < ub) && (x.1.2 == p)) = [] := by
        rw [List.filter_eq_nil_iff]
        intro x hx
        have hts := keyLt_ts_le (hs.1 x hx)
        simp only [Bool.and_eq_true, decide_eq_true_eq]
        rintro ⟨h1, -⟩
        omega
      have hhead : decide (e.1.1 < ub) = false := decide_eq_false (by omega)
      simp [forwardScan, hub, List.filter_cons, hhead, hnil]
    · have hd : decide (e.1.1 < ub) = true := decide_eq_true (by omega)
      by_cases hp : e.1.2 = p
      · simp [forwardScan, hub, List.filter_cons, hd, hp, ih']
      · have hp' : (e.1.2 == p) = false := by simp [hp]
        simp [forwardScan, hub, List.filter_cons, hd, hp', ih']

theorem search_forward_spec (s : Sequence) (lb ub p : Nat)
    (hs : s.data.Pairwise (fun a b => keyLt a.1 b.1 = true))
    (hle : lb ≤ ub) :
    s.search ⟨lb, ub, p, AKU_CURSOR_DIR_FORWARD⟩
      = some (((s.data.filter (inRangeForward lb ub p)).map (·.2)).map CursorEvent.put
          ++ [CursorEvent.complete]) := by
  have hq : decide (ub < lb) = false := decide_eq_false (by omega)
  have key : forwardScan ub p (s.data.dropWhile (fun e => keyLt e.1 (lb, 0)))
      = (s.data.filter (inRangeForward lb ub p)).map (·.2) := by
    have hsD : (s.data.dropWhile (fun e => keyLt e.1 (lb, 0))).Pairwise
        (fun a b => keyLt a.1 b.1 = true) :=
      List.Pairwise.sublist (List.dropWhile_sublist _) hs
    rw [forwardScan_eq_filter ub p _ hsD]
    have hA : (s.data.takeWhile (fun e => keyLt e.1 (lb, 0))).filter
        (inRangeForward lb ub p) = [] := by
      rw [List.filter_eq_nil_iff]
      intro x hx
      have hq' := List.mem_takeWhile_imp hx
      have hxlt : x.1.1 < lb := (keyLt_lb0 x.1 lb).mp hq'
      simp only [inRangeForward, Bool.and_eq_true, decide_eq_true_eq]
      rintro ⟨h1, -⟩
      omega
    have hB : (s.data.dropWhile (fun e => keyLt e.1 (lb, 0))).filter (inRangeForward lb ub p)
        = (s.data.dropWhile (fun e => keyLt e.1 (lb, 0))).filter
            (fun e => decide (e.1.1 < ub) && (e.1.2 == p)) := by
      apply List.filter_congr
      intro x hx
      have hxlb := dropWhile_ts_lb lb s.data hs x hx
      simp [inRangeForward, decide_eq_true hxlb]
    conv_rhs => rw [← List.takeWhile_append_dropWhile (fun e => keyLt e.1 (lb, 0)) s.data]
    rw [List.filter_append, hA, List.nil_append, hB]
  simp only [Sequence.search, AKU_CURSOR_DIR_FORWARD, AKU_CURSOR_DIR_BACKWARD, hq]
  simp [key]

theorem keyLt_ubmax (ub t pi : Nat) (hpi : pi ≤ PARAM_MAX) :
    keyLt (ub, PARAM_MAX) (t, pi) = true ↔ ub < t := by
  rw [keyLt_iff]
  show (ub < t ∨ (ub = t ∧ PARAM_MAX < pi)) ↔ ub < t
  omega

theorem takeWhile_length_lt {α : Type} (q : α → Bool) :
    ∀ (l : List α), (∃ x ∈ l, q x = false) → (l.takeWhile q).length < l.length := by
  intro l
  induction l with
  | nil =>
    rintro ⟨x, hx, -⟩
    cases hx
  | cons a t ih =>
    rintro ⟨x, hx, hqx⟩
    rw [List.takeWhile_cons]
    split
    · next hqa =>
      simp only [List.length_cons]
      have ht : (t.takeWhile q).length < t.length := by
        apply ih
        rcases List.mem_cons.mp hx with rfl | hxt
        · rw [hqa] at hqx
          cases hqx
        · exact ⟨x, hxt, hqx⟩
      omega
    · simp only [List.length_nil, List.length_cons]
      omega

theorem take_succ_of_lt {α : Type} (l : List α) (i : Nat) (h : i < l.length) :
    ∃ e, l.get? i = some e ∧ l.take (i + 1) = l.take i ++ [e] := by
  refine ⟨l.get ⟨i, h⟩, List.get?_eq_get h, ?_⟩
  rw [List.take_succ]
  have hgl : l[i]? = some (l.get ⟨i, h⟩) := by
    rw [← List.get?_eq_getElem?]
    exact List.get?_eq_get h
  rw [hgl]
  rfl

theorem backwardScan_some (data : List MapEntry) (lb ub p : Nat) :
    ∀ (i : Nat) (acc : List Nat), i < data.length →
      ∃ r, backwardScan data lb ub p i acc = some r := by
  intro i
  induction i with
  | zero =>
    intro acc h
    simp only [backwardScan, List.get?_eq_get h]
    split
    · exact ⟨acc, rfl⟩
    · exact ⟨_, rfl⟩
  | succ i ih =>
    intro acc h
    simp only [backwardScan, List.get?_eq_get h]
    split
    · exact ⟨acc, rfl⟩
    · exact ih _ (by omega)

theorem backwardScan_take (data : List MapEntry) (lb ub p : Nat) :
    ∀ (i : Nat) (acc : List Nat), i < data.length →
      backwardScan data lb ub p i acc
        = some (acc ++ emitsDesc lb ub p ((data.take (i + 1)).reverse)) := by
  intro i
  induction i with
  | zero =>
    intro acc h
    obtain ⟨e, hget, htake⟩ := take_succ_of_lt data 0 h
    rw [List.take_zero, List.nil_append] at htake
    simp only [backwardScan, hget, htake, List.reverse_cons, List.reverse_nil,
      List.nil_append]
    by_cases hbr : e.1.1 ≤ lb
    · simp [hbr, emitsDesc]
    · by_cases hc : (e.1.2 == p && decide (e.1.1 ≤ ub)) = true
      · simp [hbr, hc, emitsDesc]
      · have hc' : (e.1.2 == p && decide (e.1.1 ≤ ub)) = false := Bool.eq_false_iff.mpr hc
        simp [hbr, hc', emitsDesc]
  | succ i ih =>
    intro acc h
    obtain ⟨e, hget, htake⟩ := take_succ_of_lt data (i + 1) h
    have hi : i < data.length := by omega
    simp only [backwardScan, hget]
    rw [htake, List.reverse_append, List.reverse_cons, List.reverse_nil, List.nil_append,
      List.singleton_append]
    by_cases hbr : e.1.1 ≤ lb
    · simp [hbr, emitsDesc]
    · rw [if_neg hbr, ih _ hi]
      by_cases hc : (e.1.2 == p && decide (e.1.1 ≤ ub)) = true
      · simp [hbr, hc, emitsDesc]
      · have hc' : (e.1.2 == p && decide (e.1.1 ≤ ub)) = false := Bool.eq_false_iff.mpr hc
        simp [hbr, hc', emitsDesc]

theorem emitsDesc_eq_filter (lb ub p : Nat) (L : List MapEntry)
    (hd : L.Pairwise (fun a b => keyLt b.1 a.1 = true)) :
    emitsDesc lb ub p L = (L.filter (inRangeBackward lb ub p)).map (·.2) := by
  induction L with
  | nil => rfl
  | cons e rest ih =>
    rw [List.pairwise_cons] at hd
    by_cases hbr : e.1.1 ≤ lb
    · have hnil : rest.filter (inRangeBackward lb ub p) = [] := by
        rw [List.filter_eq_nil_iff]
        intro x hx
        have hts := keyLt_ts_le (hd.1 x hx)
        simp only [inRangeBackward, Bool.and_eq_true, decide_eq_true_eq]
        rintro ⟨h1, -⟩
        omega
      have hhead : inRangeBackward lb ub p e = false := by
        have h1 : decide (lb < e.1.1) = false := decide_eq_false (by omega)
        simp [inRangeBackward, h1]
      simp [emitsDesc, hbr, List.filter_cons, hhead, hnil]
    · have h1 : decide (lb < e.1.1) = true := decide_eq_true (by omega)
      by_cases hc : (e.1.2 == p && decide (e.1.1 ≤ ub)) = true
      · have hin : inRangeBackward lb ub p e = true := by
          simp only [inRangeBackward, h1, Bool.true_and]
          exact hc
        simp [emitsDesc, hbr, List.filter_cons, hc, hin, ih hd.2]
      · have hc' : (e.1.2 == p && decide (e.1.1 ≤ ub)) = false := Bool.eq_false_iff.mpr hc
        have hin : inRangeBackward lb ub p e = false := by
          simp only [inRangeBackward, h1, Bool.true_and]
          exact hc'
        simp [emitsDesc, hbr, List.filter_cons, hc', hin, ih hd.2]

theorem search_backward_spec (s : Sequence) (lb ub p : Nat)
    (hs : s.data.Pairwise (fun a b => keyLt a.1 b.1 = true))
    (hpid : ∀ e ∈ s.data, e.1.2 ≤ PARAM_MAX)
    (hle : lb ≤ ub)
    (hex : ∃ e ∈ s.data, ub < e.1.1) :
    s.search ⟨lb, ub, p, AKU_CURSOR_DIR_BACKWARD⟩
      = some ((((s.data.filter (inRangeBackward lb ub p)).reverse).map (·.2)).map
          CursorEvent.put ++ [CursorEvent.complete]) := by
  have hq : decide (ub < lb) = false := decide_eq_false (by omega)
  have hTR := List.takeWhile_append_dropWhile
    (fun e : MapEntry => ! keyLt (ub, PARAM_MAX) e.1) s.data
  have hlen : (s.data.takeWhile (fun e : MapEntry => ! keyLt (ub, PARAM_MAX) e.1)).length
      < s.data.length := by
    obtain ⟨e, he, hub⟩ := hex
    apply takeWhile_length_lt
    refine ⟨e, he, ?_⟩
    have : keyLt (ub, PARAM_MAX) e.1 = true := by
      rcases e with ⟨⟨t, pi⟩, off⟩
      exact (keyLt_ubmax ub t pi (hpid _ he)).mpr hub
    simp [this]
  rcases hR : s.data.dropWhile (fun e : MapEntry => ! keyLt (ub, PARAM_MAX) e.1) with
    _ | ⟨r0, rs⟩
  · exfalso
    rw [hR, List.append_nil] at hTR
    rw [hTR] at hlen
    omega
  have hr0q : (! keyLt (ub, PARAM_MAX) r0.1) = false :=
    dropWhile_head_false (fun e : MapEntry => ! keyLt (ub, PARAM_MAX) e.1) hR
  have hr0k : keyLt (ub, PARAM_MAX) r0.1 = true := by
    rcases hk : keyLt (ub, PARAM_MAX) r0.1 with _ | _
    · rw [hk] at hr0q
      cases hr0q
    · rfl
  have hr0mem : r0 ∈ s.data := by
    have : r0 ∈ s.data.dropWhile (fun e : MapEntry => ! keyLt (ub, PARAM_MAX) e.1) := by
      rw [hR]
      exact List.mem_cons_self r0 rs
    exact (List.dropWhile_sublist _).subset this
  have hr0ub : ub < r0.1.1 := by
    rcases hr0e : r0 with ⟨⟨t, pi⟩, off⟩
    rw [hr0e] at hr0k
    have := (keyLt_ubmax ub t pi (by have := hpid r0 hr0mem; rw [hr0e] at this; exact this)).mp hr0k
    simpa using this
  have hRub : ∀ x ∈ (r0 :: rs), ub < x.1.1 := by
    intro x hx
    rcases List.mem_cons.mp hx with rfl | hxs
    · exact hr0ub
    · have hPR : (r0 :: rs).Pairwise (fun a b => keyLt a.1 b.1 = true) := by
        rw [← hR]
        exact List.Pairwise.sublist (List.dropWhile_sublist _) hs
      have := keyLt_ts_le ((List.pairwise_cons.mp hPR).1 x hxs)
      omega
  have hRnil : (r0 :: rs).filter (inRangeBackward lb ub p) = [] := by
    rw [List.filter_eq_nil_iff]
    intro x hx
    have hxub := hRub x hx
    simp only [inRangeBackward, Bool.and_eq_true, decide_eq_true_eq]
    rintro ⟨-, -, h2⟩
    omega
  have hget : s.data.get?
      (s.data.takeWhile (fun e : MapEntry => ! keyLt (ub, PARAM_MAX) e.1)).length
      = some r0 := by
    have h1 : (s.data.takeWhile (fun e : MapEntry => ! keyLt (ub, PARAM_MAX) e.1)
          ++ s.data.dropWhile (fun e : MapEntry => ! keyLt (ub, PARAM_MAX) e.1)).get?
        (s.data.takeWhile (fun e : MapEntry => ! keyLt (ub, PARAM_MAX) e.1)).length
        = some r0 := by
      rw [List.get?_append_right (Nat.le_refl _), Nat.sub_self, hR]
      rfl
    rw [hTR] at h1
    exact h1
  have hbr0 : ¬ (r0.1.1 ≤ lb) := by omega
  have hcr0 : (r0.1.2 == p && decide (r0.1.1 ≤ ub)) = false := by
    have : decide (r0.1.1 ≤ ub) = false := decide_eq_false (by omega)
    simp [this]
  have hfilter : s.data.filter (inRangeBackward lb ub p)
      = (s.data.takeWhile (fun e : MapEntry => ! keyLt (ub, PARAM_MAX) e.1)).filter
          (inRangeBackward lb ub p) := by
    conv_lhs => rw [← hTR]
    rw [List.filter_append, hR, hRnil, List.append_nil]
  have hscan : backwardScan s.data lb ub p
      (upperBoundIdx s.data (ub, PARAM_MAX)) []
      = some (((s.data.filter (inRangeBackward lb ub p)).reverse).map (·.2)) := by
    simp only [upperBoundIdx]
    rcases hT : s.data.takeWhile (fun e : MapEntry => ! keyLt (ub, PARAM_MAX) e.1) with
      _ | ⟨t0, ts'⟩
    · rw [hT] at hget hfilter
      simp only [List.length_nil] at hget ⊢
      simp only [backwardScan, hget]
      rw [if_neg hbr0]
      simp only [hcr0, Bool.false_eq_true, if_false]
      rw [hfilter]
      simp
    · rw [hT] at hget hfilter hlen
      simp only [List.length_cons] at hget hlen ⊢
      simp only [backwardScan, hget]
      rw [if_neg hbr0]
      simp only [hcr0, Bool.false_eq_true, if_false]
      rw [backwardScan_take s.data lb ub p ts'.length [] (by omega)]
      have htake : s.data.take (ts'.length + 1) = t0 :: ts' := by
        have : s.data.take (t0 :: ts').length = t0 :: ts' := by
          conv_lhs => rw [← hTR, hT]
          exact List.take_left (t0 :: ts') _
        simpa using this
      rw [htake]
      have hdesc : (t0 :: ts').Pairwise (fun a b => keyLt a.1 b.1 = true) := by
        rw [← hT]
        exact List.Pairwise.sublist (List.takeWhile_sublist _) hs
      rw [emitsDesc_eq_filter lb ub p (t0 :: ts').reverse
        (List.pairwise_reverse.mpr hdesc)]
      rw [List.filter_reverse, hfilter]
      simp
  simp only [Sequence.search, AKU_CURSOR_DIR_FORWARD, AKU_CURSOR_DIR_BACKWARD, hq]
  rw [hscan]
  simp

theorem search_error (s : Sequence) (q : SearchQuery)
    (h : q.upperbound < q.lowerbound ∨
      (q.direction ≠ AKU_CURSOR_DIR_FORWARD ∧ q.direction ≠ AKU_CURSOR_DIR_BACKWARD)) :
    s.search q = some [CursorEvent.error AKU_EBAD_ARG] := by
  have hcond : (decide (q.upperbound < q.lowerbound)
      || !((q.direction == AKU_CURSOR_DIR_FORWARD).xor
            (q.direction == AKU_CURSOR_DIR_BACKWARD))) = true := by
    rcases h with h1 | ⟨h2, h3⟩
    · simp [h1]
    · have hf : (q.direction == AKU_CURSOR_DIR_FORWARD) = false := by simp [h2]
      have hb : (q.direction == AKU_CURSOR_DIR_BACKWARD) = false := by simp [h3]
      simp [hf, hb]
  simp [Sequence.search, hcond]

theorem search_forward_completes (s : Sequence) (lb ub p : Nat) (hle : lb ≤ ub) :
    ∃ offs : List Nat, s.search ⟨lb, ub, p, AKU_CURSOR_DIR_FORWARD⟩
      = some (offs.map CursorEvent.put ++ [CursorEvent.complete]) := by
  have hq : decide (ub < lb) = false := decide_eq_false (by omega)
  refine ⟨forwardScan ub p (s.data.dropWhile (fun e => keyLt e.1 (lb, 0))), ?_⟩
  simp [Sequence.search, hq, AKU_CURSOR_DIR_FORWARD, AKU_CURSOR_DIR_BACKWARD]

theorem search_backward_completes (s : Sequence) (lb ub p : Nat)
    (hpid : ∀ e ∈ s.data, e.1.2 ≤ PARAM_MAX)
    (hle : lb ≤ ub)
    (hex : ∃ e ∈ s.data, ub < e.1.1) :
    ∃ offs : List Nat, s.search ⟨lb, ub, p, AKU_CURSOR_DIR_BACKWARD⟩
      = some (offs.map CursorEvent.put ++ [CursorEvent.complete]) := by
  have hq : decide (ub < lb) = false := decide_eq_false (by omega)
  have hidx : upperBoundIdx s.data (ub, PARAM_MAX) < s.data.length := by
    simp only [upperBoundIdx]
    apply takeWhile_length_lt
    obtain ⟨e, he, hub⟩ := hex
    refine ⟨e, he, ?_⟩
    have hk : keyLt (ub, PARAM_MAX) e.1 = true := by
      rcases e with ⟨⟨t, pi⟩, off⟩
      exact (keyLt_ubmax ub t pi (hpid _ he)).mpr hub
    simp [hk]
  obtain ⟨r, hr⟩ := backwardScan_some s.data lb ub p _ [] hidx
  refine ⟨r, ?_⟩
  simp only [Sequence.search, AKU_CURSOR_DIR_FORWARD, AKU_CURSOR_DIR_BACKWARD, hq]
  rw [hr]
  simp

/-- Claim C8 (amended): a malformed direction or `upperbound < lowerbound`
is reported through the sink as a bad-argument error with no offsets and no
completion; a valid forward query always signals completion exactly once
(the event list ends in the single `complete`), and a valid backward query
does so provided the shard holds an entry with timestamp above the upper
bound — with no such entry the backward scan dereferences the end position
of the map and signals nothing. -/
theorem search_error_and_completion (s : Sequence) (q : SearchQuery)
    (hpid : ∀ e ∈ s.data, e.1.2 ≤ PARAM_MAX) :
    ((q.upperbound < q.lowerbound ∨
        (q.direction ≠ AKU_CURSOR_DIR_FORWARD ∧ q.direction ≠ AKU_CURSOR_DIR_BACKWARD)) →
      s.search q = some [CursorEvent.error AKU_EBAD_ARG]) ∧
    ((q.direction = AKU_CURSOR_DIR_FORWARD ∧ q.lowerbound ≤ q.upperbound) →
      ∃ offs : List Nat, s.search q = some (offs.map CursorEvent.put ++ [CursorEvent.complete])) ∧
    ((q.direction = AKU_CURSOR_DIR_BACKWARD ∧ q.lowerbound ≤ q.upperbound ∧
        ∃ e ∈ s.data, q.upperbound < e.1.1) →
      ∃ offs : List Nat, s.search q = some (offs.map CursorEvent.put ++ [CursorEvent.complete])) := by
  obtain ⟨lb, ub, p, dir⟩ := q
  refine ⟨fun h => search_error s _ h, fun h => ?_, fun h => ?_⟩
  · obtain ⟨hd, hle⟩ := h
    cases hd
    exact search_forward_completes s lb ub p hle
  · obtain ⟨hd, hle, hex⟩ := h
    cases hd
    exact search_backward_completes s lb ub p hpid hle hex

/-- Counterexample to claim C8 as stated: the valid backward query
`[0, 5]` on an empty shard dereferences the end position — the run is
undefined (`none`) and in particular never signals completion. -/
theorem search_backward_no_complete_cex :
    (Sequence.mk 10 [] []).search ⟨0, 5, 1, AKU_CURSOR_DIR_BACKWARD⟩ = none ∧
    ¬ ∃ evs, (Sequence.mk 10 [] []).search ⟨0, 5, 1, AKU_CURSOR_DIR_BACKWARD⟩ = some evs
        ∧ evs.count CursorEvent.complete = 1 := by
  have h0 : (Sequence.mk 10 [] []).search ⟨0, 5, 1, AKU_CURSOR_DIR_BACKWARD⟩ = none := rfl
  refine ⟨h0, ?_⟩
  rintro ⟨evs, he, -⟩
  rw [h0] at he
  cases he

/-- Witness for C8 at concrete inputs: a reversed range reports the
bad-argument error; a valid forward query and a valid backward query (an
entry above the upper bound being present) each complete. -/
theorem search_error_and_completion_witness :
    (Sequence.mk 10 [((5, 2), 50), ((20, 2), 60)] []).search ⟨7, 3, 2, AKU_CURSOR_DIR_FORWARD⟩
      = some [CursorEvent.error AKU_EBAD_ARG] ∧
    (∃ offs : List Nat, (Sequence.mk 10 [((5, 2), 50), ((20, 2), 60)] []).search
        ⟨0, 7, 2, AKU_CURSOR_DIR_FORWARD⟩
      = some (offs.map CursorEvent.put ++ [CursorEvent.complete])) ∧
    (∃ offs : List Nat, (Sequence.mk 10 [((5, 2), 50), ((20, 2), 60)] []).search
        ⟨0, 7, 2, AKU_CURSOR_DIR_BACKWARD⟩
      = some (offs.map CursorEvent.put ++ [CursorEvent.complete])) := by
  refine ⟨?_, ?_, ?_⟩
  · exact (search_error_and_completion (Sequence.mk 10 [((5, 2), 50), ((20, 2), 60)] [])
      ⟨7, 3, 2, AKU_CURSOR_DIR_FORWARD⟩ (by decide)).1 (Or.inl (by decide))
  · exact (search_error_and_completion (Sequence.mk 10 [((5, 2), 50), ((20, 2), 60)] [])
      ⟨0, 7, 2, AKU_CURSOR_DIR_FORWARD⟩ (by decide)).2.1 ⟨rfl, by decide⟩
  · exact (search_error_and_completion (Sequence.mk 10 [((5, 2), 50), ((20, 2), 60)] [])
      ⟨0, 7, 2, AKU_CURSOR_DIR_BACKWARD⟩ (by decide)).2.2 ⟨rfl, by decide, by decide⟩

/-- Claim C3 (amended): over a shard state with strictly key-sorted
contents — the invariant every sequence of adds with pairwise-distinct keys
maintains — a valid search delivers exactly the offsets of the matching
entries: forward, the keys in `[lb, ub)` ascending; backward, the keys in
`(lb, ub]` descending, provided the shard holds an entry with timestamp
above `ub` (with no such entry the backward scan dereferences the end
position of the map instead of delivering the matching offsets). -/
theorem search_range_exact (s : Sequence) (lb ub p : Nat)
    (hs : s.data.Pairwise (fun a b => keyLt a.1 b.1 = true))
    (hpid : ∀ e ∈ s.data, e.1.2 ≤ PARAM_MAX)
    (hle : lb ≤ ub) :
    s.search ⟨lb, ub, p, AKU_CURSOR_DIR_FORWARD⟩
      = some (((s.data.filter (inRangeForward lb ub p)).map (·.2)).map CursorEvent.put
          ++ [CursorEvent.complete]) ∧
    ((∃ e ∈ s.data, ub < e.1.1) →
      s.search ⟨lb, ub, p, AKU_CURSOR_DIR_BACKWARD⟩
        = some ((((s.data.filter (inRangeBackward lb ub p)).reverse).map (·.2)).map
            CursorEvent.put ++ [CursorEvent.complete])) :=
  ⟨search_forward_spec s lb ub p hs hle,
   fun hex => search_backward_spec s lb ub p hs hpid hle hex⟩

/-- Counterexample to claim C3 as stated: with entries at timestamps 0, 1
and 1023 (all of parameter 1) the valid backward search over `[0, 1023]`
should deliver the offsets 12, 11, 10 descending, but the initial
`upper_bound` position is the end of the map and the scan dereferences it:
the run is undefined (`none`) and delivers nothing. -/
theorem search_backward_range_cex :
    (Sequence.mk 10 [((0, 1), 10), ((1, 1), 11), ((1023, 1), 12)] []).search
        ⟨0, 1023, 1, AKU_CURSOR_DIR_BACKWARD⟩ = none ∧
    ¬ ∃ evs, (Sequence.mk 10 [((0, 1), 10), ((1, 1), 11), ((1023, 1), 12)] []).search
        ⟨0, 1023, 1, AKU_CURSOR_DIR_BACKWARD⟩ = some evs := by
  have h0 : (Sequence.mk 10 [((0, 1), 10), ((1, 1), 11), ((1023, 1), 12)] []).search
      ⟨0, 1023, 1, AKU_CURSOR_DIR_BACKWARD⟩ = none := rfl
  refine ⟨h0, ?_⟩
  rintro ⟨evs, he⟩
  rw [h0] at he
  cases he

/-- Witness for C3 at a concrete shard (one entry above the upper bound):
forward delivers 10, 11 ascending and backward delivers 12, 11
descending. -/
theorem search_range_exact_witness :
    (Sequence.mk 10 [((0, 1), 10), ((1, 1), 11), ((1023, 1), 12), ((2000, 1), 13)] []).search
        ⟨0, 1023, 1, AKU_CURSOR_DIR_FORWARD⟩
      = some [CursorEvent.put 10, CursorEvent.put 11, CursorEvent.complete] ∧
    (Sequence.mk 10 [((0, 1), 10), ((1, 1), 11), ((1023, 1), 12), ((2000, 1), 13)] []).search
        ⟨0, 1023, 1, AKU_CURSOR_DIR_BACKWARD⟩
      = some [CursorEvent.put 12, CursorEvent.put 11, CursorEvent.complete] := by
  have h := search_range_exact
    (Sequence.mk 10 [((0, 1), 10), ((1, 1), 11), ((1023, 1), 12), ((2000, 1), 13)] [])
    0 1023 1 (by decide) (by decide) (by decide)
  exact ⟨h.1, h.2 (by decide)⟩

theorem lookup_mem {l : List MapEntry} {k : Key} {v : Nat}
    (h : mapLookup l k = some v) : (k, v) ∈ l := by
  simp only [mapLookup, Option.map_eq_some'] at h
  obtain ⟨e, hf, hv⟩ := h
  have hmem := List.mem_of_find?_eq_some hf
  have hp := List.find?_some hf
  rw [beq_iff_eq] at hp
  have he : e = (k, v) := Prod.ext_iff.mpr ⟨hp, hv⟩
  rw [← he]
  exact hmem

theorem mapLookup_cons_pos {e : MapEntry} {l : List MapEntry} {k : Key}
    (h : (e.1 == k) = true) : mapLookup (e :: l) k = some e.2 := by
  simp only [mapLookup]
  rw [@List.find?_cons_of_pos _ (fun x : MapEntry => x.1 == k) e l h]
  rfl

theorem mapLookup_cons_neg {e : MapEntry} {l : List MapEntry} {k : Key}
    (h : (e.1 == k) = false) : mapLookup (e :: l) k = mapLookup l k := by
  simp only [mapLookup]
  rw [List.find?_cons_of_neg _ (by simp [h])]

theorem mem_mapInsert {k : Key} {v : Nat} :
    ∀ {l : List MapEntry} {x : MapEntry}, x ∈ mapInsert k v l → x ∈ l ∨ x = (k, v) := by
  intro l
  induction l with
  | nil =>
    intro x hx
    simp only [mapInsert] at hx
    rcases List.mem_cons.mp hx with rfl | hn
    · exact Or.inr rfl
    · cases hn
  | cons e rest ih =>
    intro x hx
    simp only [mapInsert] at hx
    split at hx
    · rcases List.mem_cons.mp hx with rfl | hx'
      · exact Or.inr rfl
      · exact Or.inl hx'
    · split at hx
      · exact Or.inl hx
      · rcases List.mem_cons.mp hx with rfl | hx'
        · exact Or.inl (List.mem_cons_self _ _)
        · rcases ih hx' with hr | rfl
          · exact Or.inl (List.mem_cons_of_mem _ hr)
          · exact Or.inr rfl

theorem mapInsert_pairwise (k : Key) (v : Nat) :
    ∀ (l : List MapEntry), l.Pairwise (fun a b => keyLt a.1 b.1 = true) →
      (mapInsert k v l).Pairwise (fun a b => keyLt a.1 b.1 = true) := by
  intro l
  induction l with
  | nil =>
    intro _
    simp only [mapInsert]
    exact List.pairwise_singleton _ _
  | cons e rest ih =>
    intro hs
    rw [List.pairwise_cons] at hs
    simp only [mapInsert]
    split
    · next h1 =>
      rw [List.pairwise_cons]
      refine ⟨?_, List.pairwise_cons.mpr hs⟩
      intro x hx
      rcases List.mem_cons.mp hx with rfl | hxr
      · exact h1
      · exact keyLt_trans h1 (hs.1 x hxr)
    · split
      · next h2 => exact List.pairwise_cons.mpr hs
      · next h1 h2 =>
        rw [List.pairwise_cons]
        refine ⟨?_, ih hs.2⟩
        intro x hx
        rcases mem_mapInsert hx with hxr | rfl
        · exact hs.1 x hxr
        · exact keyLt_of_not (Bool.eq_false_iff.mpr h1) h2

theorem mapLookup_mapInsert_preserved (k' : Key) (v' : Nat) :
    ∀ (l : List MapEntry), l.Pairwise (fun a b => keyLt a.1 b.1 = true) →
      ∀ {k : Key} {v : Nat}, mapLookup l k = some v →
        mapLookup (mapInsert k' v' l) k = some v := by
  intro l
  induction l with
  | nil =>
    intro _ k v h
    simp [mapLookup] at h
  | cons e rest ih =>
    intro hs k v h
    rw [List.pairwise_cons] at hs
    simp only [mapInsert]
    split
    · next h1 =>
      have hne : k' ≠ k := by
        rintro rfl
        rcases List.mem_cons.mp (lookup_mem h) with heq | hmem
        · rw [← heq] at h1
          rw [keyLt_irrefl] at h1
          cases h1
        · have h2 := hs.1 _ hmem
          have h3 := keyLt_trans h1 h2
          rw [keyLt_irrefl] at h3
          cases h3
      rw [mapLookup_cons_neg (by simp [hne])]
      exact h
    · split
      · exact h
      · by_cases hek : (e.1 == k) = true
        · rw [mapLookup_cons_pos hek] at h ⊢
          exact h
        · have hek' : (e.1 == k) = false := Bool.eq_false_iff.mpr hek
          rw [mapLookup_cons_neg hek'] at h ⊢
          exact ih hs.2 h

theorem drain_preserved (temp : List (Nat × Nat × Nat)) :
    ∀ (l : List MapEntry), l.Pairwise (fun a b => keyLt a.1 b.1 = true) →
      ∀ {k : Key} {v : Nat}, mapLookup l k = some v →
        (temp.foldl (fun d t => mapInsert (t.1, t.2.1) t.2.2 d) l).Pairwise
            (fun a b => keyLt a.1 b.1 = true) ∧
          mapLookup (temp.foldl (fun d t => mapInsert (t.1, t.2.1) t.2.2 d) l) k
            = some v := by
  induction temp with
  | nil =>
    intro l hs k v h
    exact ⟨hs, h⟩
  | cons t rest ih =>
    intro l hs k v h
    simp only [List.foldl_cons]
    exact ih _ (mapInsert_pairwise _ _ _ hs)
      (mapLookup_mapInsert_preserved _ _ _ hs h)

theorem filter_eq_key_singleton :
    ∀ (l : List MapEntry), l.Pairwise (fun a b => keyLt a.1 b.1 = true) →
      ∀ {k : Key} {v : Nat}, mapLookup l k = some v →
        l.filter (fun e => e.1 == k) = [(k, v)] := by
  intro l
  induction l with
  | nil =>
    intro _ k v h
    simp [mapLookup] at h
  | cons e rest ih =>
    intro hs k v h
    rw [List.pairwise_cons] at hs
    by_cases he : (e.1 == k) = true
    · have hv : e.2 = v := by
        rw [mapLookup_cons_pos he] at h
        exact Option.some.inj h
      have hek : e.1 = k := beq_iff_eq.mp he
      have hrest : rest.filter (fun x => x.1 == k) = [] := by
        rw [List.filter_eq_nil_iff]
        intro x hx
        have hlt := hs.1 x hx
        rw [hek] at hlt
        intro hxk
        rw [beq_iff_eq] at hxk
        rw [hxk] at hlt
        rw [keyLt_irrefl] at hlt
        cases hlt
      rw [List.filter_cons, if_pos he, hrest]
      have : e = (k, v) := Prod.ext_iff.mpr ⟨hek, hv⟩
      rw [this]
    · have he' : (e.1 == k) = false := Bool.eq_false_iff.mpr he
      rw [mapLookup_cons_neg he'] at h
      rw [List.filter_cons, if_neg (by simp [he'])]
      exact ih hs.2 h

theorem inRangeForward_point (ts p : Nat) (x : MapEntry) :
    inRangeForward ts (ts + 1) p x = (x.1 == (ts, p)) := by
  rcases x with ⟨⟨t, pi⟩, off⟩
  rw [Bool.eq_iff_iff]
  simp only [inRangeForward, Bool.and_eq_true, decide_eq_true_eq, beq_iff_eq,
    Prod.mk.injEq]
  omega

theorem search_point (s' : Sequence) (ts p o1 : Nat)
    (hs : s'.data.Pairwise (fun a b => keyLt a.1 b.1 = true))
    (hl : mapLookup s'.data (ts, p) = some o1) :
    s'.search ⟨ts, ts + 1, p, AKU_CURSOR_DIR_FORWARD⟩
      = some [CursorEvent.put o1, CursorEvent.complete] := by
  rw [search_forward_spec s' ts (ts + 1) p hs (by omega)]
  rw [List.filter_congr (fun x _ => inRangeForward_point ts p x),
    filter_eq_key_singleton s'.data hs hl]
  rfl

/-- Claim C4: shard insertion is first-writer-wins — when the shard map
already binds the key `(ts, p)` to `o1`, a second `Sequence::add` of the
same key with a different offset `o2` leaves the binding at `o1` (even
after the overflow buffer is drained), and a following search of that key
returns only `o1`, never `o2`. -/
theorem add_first_writer_wins (s : Sequence) (ts p o1 o2 : Nat)
    (hs : s.data.Pairwise (fun a b => keyLt a.1 b.1 = true))
    (h1 : mapLookup s.data (ts, p) = some o1) :
    mapLookup ((s.add ts p o2).2).data (ts, p) = some o1 ∧
    ((s.add ts p o2).2).search ⟨ts, ts + 1, p, AKU_CURSOR_DIR_FORWARD⟩
      = some [CursorEvent.put o1, CursorEvent.complete] := by
  obtain ⟨hds, hdl⟩ := drain_preserved s.temp s.data hs h1
  have hdata : ((s.add ts p o2).2).data
      = mapInsert (ts, p) o2
          (s.temp.foldl (fun d t => mapInsert (t.1, t.2.1) t.2.2 d) s.data) := rfl
  have hlook : mapLookup ((s.add ts p o2).2).data (ts, p) = some o1 := by
    rw [hdata]
    exact mapLookup_mapInsert_preserved _ _ _ hds hdl
  have hsorted : ((s.add ts p o2).2).data.Pairwise (fun a b => keyLt a.1 b.1 = true) := by
    rw [hdata]
    exact mapInsert_pairwise _ _ _ hds
  exact ⟨hlook, search_point _ ts p o1 hsorted hlook⟩

/-- Witness for C4: the shard binds `(3, 1) ↦ 9` (with a pending overflow
triple for another key); adding `(3, 1) ↦ 99` keeps the binding 9 and the
search of `[3, 4)` delivers only 9. -/
theorem add_first_writer_wins_witness :
    mapLookup (((Sequence.mk 10 [((3, 1), 9)] [(2, 1, 4)]).add 3 1 99).2).data (3, 1)
      = some 9 ∧
    (((Sequence.mk 10 [((3, 1), 9)] [(2, 1, 4)]).add 3 1 99).2).search
        ⟨3, 3 + 1, 1, AKU_CURSOR_DIR_FORWARD⟩
      = some [CursorEvent.put 9, CursorEvent.complete] :=
  add_first_writer_wins (Sequence.mk 10 [((3, 1), 9)] [(2, 1, 4)]) 3 1 9 99
    (by decide) (by decide)

end Akumuli
